import Mathlib

/-!
Verification of @wearegenki/db (Vue + vuex plugin for reactive PouchDB in a
web worker) against its natural-language specification.

The development shallowly embeds the core logic of the repository:

* the request multiplexer of `src/db.js` (`_send` / `_receive`);
* the worker-side query engine of `src/worker.js` (`compare` / `runQuery`);
* the change dispatcher (`processItem` inside `handleChange`), in both the
  current `src/worker.js` revision and the earlier `db.worker.js` revision;
* the reactive-query registry (`register` / `unregister`);
* the upsert retry loop of `src/db.js` (`upsert` / `_tryPut`);
* the `changes` request handler and `waitFor` of the worker.

JavaScript machine details are made explicit: strings compare by code-unit
order (modelled on `String.data`, the underlying character list), `undefined`
is `Option.none`, a thrown `TypeError` is modelled by an `Option`/flag result,
and the single-threaded event loop is modelled by folding a step function
over a list of events.
-/

namespace WAGDB

/-! ### JavaScript string comparison

JS `<`/`<=` on strings is lexicographic on UTF-16 code units; for strings of
BMP characters (all strings appearing here) this agrees with lexicographic
order on the code points, i.e. on `String.data`. -/

/-- JS `a < b` on strings: lexicographic order on the character list. -/
def jsLt (a b : String) : Bool := decide (a.data < b.data)

/-- JS `a <= b` on strings: lexicographic order on the character list. -/
def jsLe (a b : String) : Bool := decide (a.data ≤ b.data)

/-- Models `x.localeCompare(y) <= 0`, the ascending-order test used by the
sort comparator in `runQuery`.  `localeCompare` is locale dependent; it is
modelled here as the code-unit order, which is adequate for the ASCII
fixture data the spec discusses. -/
def localeLe (x y : String) : Bool := jsLe x y

theorem jsLe_total (a b : String) : jsLe a b = true ∨ jsLe b a = true := by
  simp only [jsLe, decide_eq_true_eq]
  exact le_total a.data b.data

theorem jsLe_trans {a b c : String} (h1 : jsLe a b = true) (h2 : jsLe b c = true) :
    jsLe a c = true := by
  simp only [jsLe, decide_eq_true_eq] at h1 h2 ⊢
  exact le_trans h1 h2

/-! ### Request multiplexer (`src/db.js`)

```js
let sequence = 0;
const resolves = new Map();
const rejects = new Map();
```

`_send` allocates `sequence + 1` as the message id and stores the promise
callbacks under it; `_receive` settles and removes them.  The two `Map`s are
modelled as association lists from sequence id to the identity of the call
whose `resolve`/`reject` callback is stored there (in the source the stored
value is the callback closure itself; closures of distinct calls are
distinct, so a call identifier is a faithful shallow rendering). -/

/-- `Map.get` on an association list keyed by sequence id. -/
def lookupKey (m : List (Nat × Nat)) (k : Nat) : Option Nat :=
  (m.find? (fun p => p.1 == k)).map (fun p => p.2)

/-- `Map.delete` on an association list keyed by sequence id. -/
def deleteKey (m : List (Nat × Nat)) (k : Nat) : List (Nat × Nat) :=
  m.filter (fun p => p.1 ≠ k)

/-- The controller-side multiplexer state: the `sequence` counter and the
`resolves` / `rejects` maps of `src/db.js`. -/
structure MuxState where
  sequence : Nat
  resolves : List (Nat × Nat)
  rejects : List (Nat × Nat)
  deriving DecidableEq

/-- Initial state: `sequence = 0`, both maps empty. -/
def initMux : MuxState := ⟨0, [], []⟩

/-- `_send` (src/db.js lines 224-234): increment `sequence`, store the
callbacks of the calling promise under the new id, return the id used in the
posted message. -/
def sendMsg (s : MuxState) (callId : Nat) : MuxState × Nat :=
  let i := s.sequence + 1
  (⟨i, (i, callId) :: s.resolves, (i, callId) :: s.rejects⟩, i)

/-- An incoming worker message as seen by `_receive` after `JSON.parse`:
optional `i`, `res`, `rej`, `commit` fields (`none` = the field is absent /
`undefined`).  Payloads are modelled as strings. -/
structure WorkerData where
  i : Option Nat := none
  res : Option String := none
  rej : Option String := none
  commit : Option String := none
  deriving DecidableEq

/-- A promise settlement fired by `_receive`: which call's future settled and
with which payload (`rejected` carries `data.rej`, which may be absent). -/
inductive FireEvent where
  | resolved (callId : Nat) (payload : String)
  | rejected (callId : Nat) (payload : Option String)
  deriving DecidableEq

/-- What `_receive` did with one message. -/
inductive RecvAction where
  | fire (e : FireEvent)
  | idle
  | committed (mutation : String)
  | threw
  deriving DecidableEq

/-- `_receive` (src/db.js lines 236-257):

```js
if (data.i !== undefined) {
  if (data.res !== undefined && resolves.has(data.i)) {
    resolves.get(data.i)(data.res);
  } else if (rejects.has(data.i)) {
    rejects.get(data.i)(data.rej);
  }
  resolves.delete(data.i);
  rejects.delete(data.i);
} else if (data.commit !== undefined) { ...commit... } else { throw ... }
``` -/
def receiveData (s : MuxState) (data : WorkerData) : MuxState × RecvAction :=
  match data.i with
  | some i =>
    let act :=
      match data.res, lookupKey s.resolves i with
      | some p, some c => RecvAction.fire (FireEvent.resolved c p)
      | _, _ =>
        match lookupKey s.rejects i with
        | some c => RecvAction.fire (FireEvent.rejected c data.rej)
        | none => RecvAction.idle
    (⟨s.sequence, deleteKey s.resolves i, deleteKey s.rejects i⟩, act)
  | none =>
    match data.commit with
    | some m => (s, RecvAction.committed m)
    | none => (s, RecvAction.threw)

/-- Deliver a list of worker messages to `_receive` in order, collecting the
promise settlements that fire. -/
def recvAll (s : MuxState) : List WorkerData → MuxState × List FireEvent
  | [] => (s, [])
  | d :: rest =>
    ((recvAll (receiveData s d).1 rest).1,
      (match (receiveData s d).2 with
       | RecvAction.fire e => [e]
       | _ => []) ++ (recvAll (receiveData s d).1 rest).2)

/-- State after `n` consecutive `_send` calls from the initial state; the
`k`-th call (1-based) is identified by `callId = k`. -/
def sendN : Nat → MuxState
  | 0 => initMux
  | n + 1 => (sendMsg (sendN n) (n + 1)).1

/-- The sequence ids handed out by the first `n` `_send` calls, in call
order. -/
def assignedIds : Nat → List Nat
  | 0 => []
  | n + 1 => assignedIds n ++ [(sendMsg (sendN n) (n + 1)).2]

/-- The response message for call `k`: it bears call `k`'s own sequence id
and either a `res` payload (when `ok k`) or a `rej` payload. -/
def responseMsg (pay : Nat → String) (ok : Nat → Bool) (k : Nat) : WorkerData :=
  if ok k then { i := some k, res := some (pay k) }
  else { i := some k, rej := some (pay k) }

/-- One response per outstanding call, in sequence-id order; an arrival order
of the responses is any permutation of this list. -/
def canonicalResponses (n : Nat) (pay : Nat → String) (ok : Nat → Bool) :
    List WorkerData :=
  (List.range' 1 n).map (responseMsg pay ok)

/-- The call whose future a settlement belongs to. -/
def eventCallId : FireEvent → Nat
  | FireEvent.resolved c _ => c
  | FireEvent.rejected c _ => c

/-- An action on the multiplexer: a `_send` call or an incoming message. -/
inductive MuxAction where
  | send (callId : Nat)
  | recv (d : WorkerData)
  deriving DecidableEq

/-- Run a list of actions against the multiplexer state. -/
def muxRun (s : MuxState) : List MuxAction → MuxState
  | [] => s
  | MuxAction.send c :: rest => muxRun (sendMsg s c).1 rest
  | MuxAction.recv d :: rest => muxRun (receiveData s d).1 rest

/-- The sequence ids assigned to the `send` actions of a trace, in order. -/
def sendIdsOf (s : MuxState) : List MuxAction → List Nat
  | [] => []
  | MuxAction.send c :: rest =>
    let (s', i) := sendMsg s c
    i :: sendIdsOf s' rest
  | MuxAction.recv d :: rest => sendIdsOf (receiveData s d).1 rest

/-! #### Association-list map lemmas -/

theorem lookupKey_mem {m : List (Nat × Nat)} {k c : Nat}
    (h : lookupKey m k = some c) : (k, c) ∈ m := by
  unfold lookupKey at h
  cases hf : m.find? (fun p => p.1 == k) with
  | none =>
    rw [hf] at h
    exact Option.noConfusion h
  | some a =>
    rw [hf] at h
    have hc : a.2 = c := Option.some.inj h
    have hk : a.1 = k := by
      have := List.find?_some hf
      simpa using this
    have hmem := List.mem_of_find?_eq_some hf
    have : (k, c) = a := by
      cases a with
      | mk a1 a2 =>
        simp only [Prod.mk.injEq]
        exact ⟨hk.symm, hc.symm⟩
    rw [this]
    exact hmem

theorem mem_deleteKey {m : List (Nat × Nat)} {k : Nat} {p : Nat × Nat}
    (h : p ∈ deleteKey m k) : p ∈ m ∧ p.1 ≠ k := by
  unfold deleteKey at h
  have := List.mem_filter.1 h
  simpa using this

theorem lookupKey_deleteKey_self (m : List (Nat × Nat)) (k : Nat) :
    lookupKey (deleteKey m k) k = none := by
  have h : (deleteKey m k).find? (fun p => p.1 == k) = none := by
    rw [List.find?_eq_none]
    intro p hp
    have := (mem_deleteKey hp).2
    simpa using this
  unfold lookupKey
  rw [h]
  rfl

theorem lookupKey_deleteKey_ne (m : List (Nat × Nat)) {j k : Nat} (h : j ≠ k) :
    lookupKey (deleteKey m k) j = lookupKey m j := by
  induction m with
  | nil => rfl
  | cons a m ih =>
    by_cases hak : a.1 = k
    · have h1 : deleteKey (a :: m) k = deleteKey m k := by
        simp [deleteKey, List.filter_cons, hak]
      have h2 : lookupKey (a :: m) j = lookupKey m j := by
        have : (a.1 == j) = false := by
          simp only [beq_eq_false_iff_ne, ne_eq]
          rw [hak]; exact fun hh => h hh.symm
        simp [lookupKey, List.find?_cons, this]
      rw [h1, h2, ih]
    · have h1 : deleteKey (a :: m) k = a :: deleteKey m k := by
        simp [deleteKey, List.filter_cons, hak]
      rw [h1]
      by_cases haj : a.1 = j
      · have : (a.1 == j) = true := by simpa using haj
        simp [lookupKey, List.find?_cons, this]
      · have : (a.1 == j) = false := by simpa using haj
        simp only [lookupKey, List.find?_cons, this]
        exact ih

theorem deleteKey_of_lookup_none {m : List (Nat × Nat)} {k : Nat}
    (h : lookupKey m k = none) : deleteKey m k = m := by
  unfold lookupKey at h
  rw [Option.map_eq_none'] at h
  rw [List.find?_eq_none] at h
  apply List.filter_eq_self.2
  intro p hp
  have := h p hp
  simpa using this

/-! #### `_receive` step lemmas -/

theorem receiveData_state {s : MuxState} {d : WorkerData} {i : Nat}
    (hi : d.i = some i) :
    (receiveData s d).1 = ⟨s.sequence, deleteKey s.resolves i, deleteKey s.rejects i⟩ := by
  simp [receiveData, hi]

theorem receiveData_none {s : MuxState} {d : WorkerData} (hi : d.i = none) :
    (receiveData s d).1 = s := by
  cases hc : d.commit <;> simp [receiveData, hi, hc]

theorem receiveData_none_no_fire {s : MuxState} {d : WorkerData} {e : FireEvent}
    (hi : d.i = none) (h : (receiveData s d).2 = RecvAction.fire e) : False := by
  cases hc : d.commit <;> simp [receiveData, hi, hc] at h

theorem receiveData_fire_lookup {s : MuxState} {d : WorkerData} {e : FireEvent} {j : Nat}
    (hj : d.i = some j) (h : (receiveData s d).2 = RecvAction.fire e) :
    lookupKey s.resolves j = some (eventCallId e) ∨
      lookupKey s.rejects j = some (eventCallId e) := by
  cases hres : d.res with
  | some p =>
    cases hlr : lookupKey s.resolves j with
    | some c =>
      simp [receiveData, hj, hres, hlr] at h
      left
      subst h
      rfl
    | none =>
      cases hlj : lookupKey s.rejects j with
      | some c =>
        simp [receiveData, hj, hres, hlr, hlj] at h
        right
        subst h
        rfl
      | none => simp [receiveData, hj, hres, hlr, hlj] at h
  | none =>
    cases hlj : lookupKey s.rejects j with
    | some c =>
      simp [receiveData, hj, hres, hlj] at h
      right
      subst h
      rfl
    | none => simp [receiveData, hj, hres, hlj] at h

theorem receiveData_res_some {s : MuxState} {d : WorkerData} {i : Nat} {p : String} {c : Nat}
    (hi : d.i = some i) (hres : d.res = some p) (hlk : lookupKey s.resolves i = some c) :
    (receiveData s d).2 = RecvAction.fire (FireEvent.resolved c p) := by
  simp [receiveData, hi, hres, hlk]

theorem receiveData_res_none {s : MuxState} {d : WorkerData} {i : Nat} {c : Nat}
    (hi : d.i = some i) (hres : d.res = none) (hlk : lookupKey s.rejects i = some c) :
    (receiveData s d).2 = RecvAction.fire (FireEvent.rejected c d.rej) := by
  simp [receiveData, hi, hres, hlk]

theorem receiveData_resolves_sub {s : MuxState} {d : WorkerData} {p : Nat × Nat}
    (h : p ∈ (receiveData s d).1.resolves) : p ∈ s.resolves := by
  cases hi : d.i with
  | some j =>
    rw [receiveData_state hi] at h
    exact (mem_deleteKey h).1
  | none =>
    rw [receiveData_none hi] at h
    exact h

theorem receiveData_rejects_sub {s : MuxState} {d : WorkerData} {p : Nat × Nat}
    (h : p ∈ (receiveData s d).1.rejects) : p ∈ s.rejects := by
  cases hi : d.i with
  | some j =>
    rw [receiveData_state hi] at h
    exact (mem_deleteKey h).1
  | none =>
    rw [receiveData_none hi] at h
    exact h

/-- If no stored callback belongs to call `c`, then no settlement for call
`c` can ever fire, whatever messages arrive: `_receive` only ever removes
entries. -/
theorem recvAll_no_call (ms : List WorkerData) : ∀ (s : MuxState) (c : Nat),
    (∀ p ∈ s.resolves, p.2 ≠ c) → (∀ p ∈ s.rejects, p.2 ≠ c) →
    ((recvAll s ms).2.filter (fun e => eventCallId e == c)) = [] := by
  induction ms with
  | nil => intro s c _ _; rfl
  | cons d rest ih =>
    intro s c h1 h2
    have h1' : ∀ p ∈ (receiveData s d).1.resolves, p.2 ≠ c :=
      fun p hp => h1 p (receiveData_resolves_sub hp)
    have h2' : ∀ p ∈ (receiveData s d).1.rejects, p.2 ≠ c :=
      fun p hp => h2 p (receiveData_rejects_sub hp)
    have hrest := ih (receiveData s d).1 c h1' h2'
    show (((match (receiveData s d).2 with
            | RecvAction.fire e => [e]
            | _ => []) ++ (recvAll (receiveData s d).1 rest).2).filter
          (fun e => eventCallId e == c)) = []
    rw [List.filter_append, hrest, List.append_nil]
    cases hact : (receiveData s d).2 with
    | fire e =>
      cases hi : d.i with
      | none => exact absurd hact (fun hh => receiveData_none_no_fire hi hh)
      | some j =>
        have hlk := receiveData_fire_lookup hi hact
        have hne : eventCallId e ≠ c := by
          rcases hlk with hl | hl
          · exact h1 _ (lookupKey_mem hl)
          · exact h2 _ (lookupKey_mem hl)
        simp [hne]
    | idle => rfl
    | committed m => rfl
    | threw => rfl

/-- Main correlation lemma: if the callback for call `c` is stored under
sequence id `i` (in both maps), every other stored callback belongs to a
different call, and the incoming messages contain exactly one message `m`
bearing id `i`, then exactly one settlement fires for call `c`, and it
carries `m`'s own payload — resolved with `m.res` when present, rejected
with `m.rej` otherwise. -/
theorem recvAll_correlate (ms : List WorkerData) :
    ∀ (s : MuxState) (i c : Nat) (m : WorkerData),
    s.rejects = s.resolves →
    lookupKey s.resolves i = some c →
    (∀ p ∈ s.resolves, p.2 = c → p.1 = i) →
    ms.filter (fun d => d.i == some i) = [m] →
    ((recvAll s ms).2.filter (fun e => eventCallId e == c))
      = [match m.res with
         | some p => FireEvent.resolved c p
         | none => FireEvent.rejected c m.rej] := by
  induction ms with
  | nil =>
    intro s i c m _ _ _ hf
    exact absurd hf (by simp)
  | cons d rest ih =>
    intro s i c m hrr hlk hinj hf
    by_cases hdi : d.i = some i
    · have hhead : (d.i == some i) = true := by simpa using hdi
      rw [List.filter_cons, if_pos hhead] at hf
      have hd : d = m := by
        have := List.head_eq_of_cons_eq hf
        exact this
      have hrest0 : rest.filter (fun d2 => d2.i == some i) = [] :=
        List.tail_eq_of_cons_eq hf
      -- after this message both entries for id i are gone, and with them the
      -- only callbacks belonging to call c
      have hstate := receiveData_state (s := s) hdi
      have hres' : ∀ p ∈ (receiveData s d).1.resolves, p.2 ≠ c := by
        intro p hp hc
        rw [hstate] at hp
        have h2 := mem_deleteKey hp
        exact h2.2 (hinj p h2.1 hc)
      have hrej' : ∀ p ∈ (receiveData s d).1.rejects, p.2 ≠ c := by
        intro p hp hc
        rw [hstate] at hp
        have h2 := mem_deleteKey hp
        rw [hrr] at h2
        exact h2.2 (hinj p h2.1 hc)
      have hrest := recvAll_no_call rest (receiveData s d).1 c hres' hrej'
      show (((match (receiveData s d).2 with
              | RecvAction.fire e => [e]
              | _ => []) ++ (recvAll (receiveData s d).1 rest).2).filter
            (fun e => eventCallId e == c)) = _
      rw [List.filter_append, hrest, List.append_nil]
      cases hres : d.res with
      | some p =>
        rw [receiveData_res_some hdi hres hlk]
        rw [hd] at hres
        simp [hres, eventCallId]
      | none =>
        rw [receiveData_res_none hdi hres (hrr ▸ hlk)]
        rw [hd] at hres
        simp [hres, hd, eventCallId]
    · have hhead : (d.i == some i) = false := by simpa using hdi
      rw [List.filter_cons, if_neg (by simp [hhead])] at hf
      show (((match (receiveData s d).2 with
              | RecvAction.fire e => [e]
              | _ => []) ++ (recvAll (receiveData s d).1 rest).2).filter
            (fun e => eventCallId e == c)) = _
      rw [List.filter_append]
      cases hi : d.i with
      | none =>
        have hstate := receiveData_none (s := s) hi
        have hact : ∀ e, (receiveData s d).2 ≠ RecvAction.fire e :=
          fun e hh => receiveData_none_no_fire hi hh
        have : (match (receiveData s d).2 with
                | RecvAction.fire e => [e]
                | _ => []) = ([] : List FireEvent) := by
          cases hh : (receiveData s d).2 with
          | fire e => exact absurd hh (hact e)
          | idle => rfl
          | committed m2 => rfl
          | threw => rfl
        rw [this]
        rw [hstate]
        simpa using ih s i c m hrr hlk hinj hf
      | some j =>
        have hji : j ≠ i := fun hh => hdi (by rw [hi, hh])
        have hstate := receiveData_state (s := s) hi
        -- the head event, if any, belongs to another call
        have hhead_evs : ((match (receiveData s d).2 with
                | RecvAction.fire e => [e]
                | _ => []).filter (fun e => eventCallId e == c)) = [] := by
          cases hh : (receiveData s d).2 with
          | fire e =>
            have hlk2 := receiveData_fire_lookup hi hh
            have hne : eventCallId e ≠ c := by
              intro hc
              rcases hlk2 with hl | hl
              · exact hji (hinj _ (lookupKey_mem hl) hc)
              · rw [hrr] at hl
                exact hji (hinj _ (lookupKey_mem hl) hc)
            simp [hne]
          | idle => rfl
          | committed m2 => rfl
          | threw => rfl
        rw [hhead_evs]
        -- the new state still satisfies all hypotheses
        have hrr' : (receiveData s d).1.rejects = (receiveData s d).1.resolves := by
          rw [hstate]
          show deleteKey s.rejects j = deleteKey s.resolves j
          rw [hrr]
        have hlk' : lookupKey (receiveData s d).1.resolves i = some c := by
          rw [hstate]
          show lookupKey (deleteKey s.resolves j) i = some c
          rw [lookupKey_deleteKey_ne _ (fun hh => hji hh.symm)]
          exact hlk
        have hinj' : ∀ p ∈ (receiveData s d).1.resolves, p.2 = c → p.1 = i :=
          fun p hp hc => hinj p (receiveData_resolves_sub hp) hc
        rw [List.nil_append]
        exact ih (receiveData s d).1 i c m hrr' hlk' hinj' hf

/-! #### Facts about the state after `n` sends -/

theorem sendN_sequence (n : Nat) : (sendN n).sequence = n := by
  induction n with
  | zero => rfl
  | succ n ih => simp [sendN, sendMsg, ih]

theorem sendN_resolves_succ (n : Nat) :
    (sendN (n + 1)).resolves = (n + 1, n + 1) :: (sendN n).resolves := by
  simp [sendN, sendMsg, sendN_sequence]

theorem sendN_rejects (n : Nat) : (sendN n).rejects = (sendN n).resolves := by
  induction n with
  | zero => rfl
  | succ n ih => simp [sendN, sendMsg, ih]

theorem sendN_resolves_mem (n : Nat) :
    ∀ p ∈ (sendN n).resolves, p.1 = p.2 ∧ 1 ≤ p.1 ∧ p.1 ≤ n := by
  induction n with
  | zero => intro p hp; exact absurd hp (by simp [sendN, initMux])
  | succ n ih =>
    intro p hp
    rw [sendN_resolves_succ] at hp
    rcases List.mem_cons.1 hp with hh | hh
    · rw [hh]
      exact ⟨rfl, Nat.succ_le_succ (Nat.zero_le n), Nat.le_refl _⟩
    · obtain ⟨h1, h2, h3⟩ := ih p hh
      exact ⟨h1, h2, Nat.le_succ_of_le h3⟩

theorem sendN_lookup {n k : Nat} (h1 : 1 ≤ k) (h2 : k ≤ n) :
    lookupKey (sendN n).resolves k = some k := by
  induction n with
  | zero => exact absurd (Nat.le_trans h1 h2) (by simp)
  | succ n ih =>
    rw [sendN_resolves_succ]
    by_cases hk : k = n + 1
    · subst hk
      simp [lookupKey, List.find?_cons]
    · have hkn : k ≤ n := Nat.lt_succ_iff.1 (Nat.lt_of_le_of_ne h2 hk)
      have hne : ((n + 1 : Nat) == k) = false := by
        simp only [beq_eq_false_iff_ne, ne_eq]
        exact fun hh => hk hh.symm
      unfold lookupKey
      rw [List.find?_cons]
      simp only [hne]
      exact ih hkn

/-! #### The canonical response list -/

theorem responseMsg_i (pay : Nat → String) (ok : Nat → Bool) (k : Nat) :
    (responseMsg pay ok k).i = some k := by
  by_cases h : ok k <;> simp [responseMsg, h]

theorem filter_beq_range'_lt : ∀ (n s k : Nat), k < s →
    (List.range' s n).filter (fun j => j == k) = [] := by
  intro n
  induction n with
  | zero => intro s k _; rfl
  | succ n ih =>
    intro s k hk
    rw [List.range'_succ, List.filter_cons]
    have : (s == k) = false := by
      simp only [beq_eq_false_iff_ne, ne_eq]
      exact fun hh => absurd hk (by rw [hh]; exact Nat.lt_irrefl k)
    rw [if_neg (by simp [this])]
    exact ih (s + 1) k (Nat.lt_succ_of_lt hk)

theorem filter_beq_range' : ∀ (n s k : Nat), s ≤ k → k < s + n →
    (List.range' s n).filter (fun j => j == k) = [k] := by
  intro n
  induction n with
  | zero =>
    intro s k h1 h2
    exact absurd (Nat.lt_of_le_of_lt h1 h2) (Nat.lt_irrefl s)
  | succ n ih =>
    intro s k h1 h2
    rw [List.range'_succ, List.filter_cons]
    by_cases hk : s = k
    · subst hk
      rw [if_pos (by simp)]
      rw [filter_beq_range'_lt n (s + 1) s (Nat.lt_succ_self s)]
    · have h1' : s + 1 ≤ k := Nat.lt_of_le_of_ne h1 hk
      rw [if_neg (by simp [hk])]
      exact ih (s + 1) k h1' (by omega)

theorem canonical_filter {n k : Nat} (pay : Nat → String) (ok : Nat → Bool)
    (h1 : 1 ≤ k) (h2 : k ≤ n) :
    (canonicalResponses n pay ok).filter (fun d => d.i == some k)
      = [responseMsg pay ok k] := by
  unfold canonicalResponses
  have hmap : ∀ (l : List Nat),
      (l.map (responseMsg pay ok)).filter (fun d => d.i == some k)
        = (l.filter (fun j => j == k)).map (responseMsg pay ok) := by
    intro l
    induction l with
    | nil => rfl
    | cons a l ihl =>
      rw [List.map_cons, List.filter_cons, List.filter_cons]
      by_cases ha : a = k
      · subst ha
        rw [if_pos (by simp [responseMsg_i]), if_pos (by simp)]
        rw [List.map_cons, ihl]
      · rw [if_neg (by simp [responseMsg_i, ha]), if_neg (by simp [ha])]
        exact ihl
  rw [hmap, filter_beq_range' n 1 k h1 (by omega), List.map_cons, List.map_nil]

theorem assignedIds_eq (n : Nat) : assignedIds n = List.range' 1 n := by
  induction n with
  | zero => rfl
  | succ n ih =>
    have h : (sendMsg (sendN n) (n + 1)).2 = n + 1 := by
      simp [sendMsg, sendN_sequence]
    rw [assignedIds, h, ih]
    rw [List.range'_concat]
    simp [Nat.add_comm]

/-- C1: Request Multiplexer correlation.  For every finite number `n` of
concurrent `send()` calls on the facade, the assigned sequence ids are
pairwise distinct, and for every arrival order `ms` of the `n` responses
(any permutation of one response per call), call `k`'s future settles
exactly once, with exactly the payload carried by the response message
bearing call `k`'s own sequence id — resolved with its `res` payload when
the response is a success, rejected with its `rej` payload otherwise. -/
theorem mux_send_correlation (n : Nat) (pay : Nat → String) (ok : Nat → Bool) :
    (assignedIds n).Nodup ∧
    ∀ ms : List WorkerData, ms.Perm (canonicalResponses n pay ok) →
    ∀ k, 1 ≤ k → k ≤ n →
      ((recvAll (sendN n) ms).2.filter (fun e => eventCallId e == k))
        = [if ok k then FireEvent.resolved k (pay k)
           else FireEvent.rejected k (some (pay k))] := by
  constructor
  · rw [assignedIds_eq]
    exact List.nodup_range' 1 n
  · intro ms hperm k hk1 hk2
    have hms : ms.filter (fun d => d.i == some k) = [responseMsg pay ok k] := by
      have hp := hperm.filter (fun d => d.i == some k)
      rw [canonical_filter pay ok hk1 hk2] at hp
      exact List.perm_singleton.1 hp
    have hinj : ∀ p ∈ (sendN n).resolves, p.2 = k → p.1 = k := by
      intro p hp hc
      have := (sendN_resolves_mem n p hp).1
      rw [this, hc]
    have hmain := recvAll_correlate ms (sendN n) k k (responseMsg pay ok k)
      (sendN_rejects n) (sendN_lookup hk1 hk2) hinj hms
    rw [hmain]
    by_cases h : ok k <;> simp [responseMsg, h]

/-- Witness for `mux_send_correlation`: two sends, the first answered with a
success payload and the second with a failure payload, delivered in reverse
order. -/
theorem mux_send_correlation_witness :
    (assignedIds 2).Nodup ∧
    ((recvAll (sendN 2)
        [⟨some 2, none, some "b", none⟩, ⟨some 1, some "a", none, none⟩]).2.filter
      (fun e => eventCallId e == 1)) = [FireEvent.resolved 1 "a"] ∧
    ((recvAll (sendN 2)
        [⟨some 2, none, some "b", none⟩, ⟨some 1, some "a", none, none⟩]).2.filter
      (fun e => eventCallId e == 2)) = [FireEvent.rejected 2 (some "b")] := by
  have h := mux_send_correlation 2 (fun k => if k = 1 then "a" else "b")
    (fun k => k == 1)
  refine ⟨h.1, ?_, ?_⟩
  · exact h.2 _ (by decide) 1 (by decide) (by decide)
  · exact h.2 _ (by decide) 2 (by decide) (by decide)

/-! #### Pending-request bookkeeping (C4) -/

theorem lookupKey_deleteKey_none {m : List (Nat × Nat)} {i : Nat} (j : Nat)
    (h : lookupKey m i = none) : lookupKey (deleteKey m j) i = none := by
  by_cases hji : i = j
  · subst hji
    exact lookupKey_deleteKey_self m i
  · rw [lookupKey_deleteKey_ne m hji]
    exact h

theorem lookupKey_none_of_bound {m : List (Nat × Nat)} {b i : Nat}
    (hb : ∀ p ∈ m, p.1 ≤ b) (hi : b < i) : lookupKey m i = none := by
  have h : m.find? (fun p => p.1 == i) = none := by
    rw [List.find?_eq_none]
    intro p hp
    have := hb p hp
    simp only [beq_iff_eq]
    omega
  unfold lookupKey
  rw [h]
  rfl

theorem receiveData_sequence (s : MuxState) (d : WorkerData) :
    (receiveData s d).1.sequence = s.sequence := by
  cases hi : d.i with
  | some j => rw [receiveData_state hi]
  | none => rw [receiveData_none hi]

theorem receiveData_some_not_threw {s : MuxState} {d : WorkerData} {i : Nat}
    (hi : d.i = some i) : (receiveData s d).2 ≠ RecvAction.threw := by
  cases hres : d.res with
  | some p =>
    cases hlr : lookupKey s.resolves i with
    | some c => simp [receiveData, hi, hres, hlr]
    | none =>
      cases hlj : lookupKey s.rejects i with
      | some c => simp [receiveData, hi, hres, hlr, hlj]
      | none => simp [receiveData, hi, hres, hlr, hlj]
  | none =>
    cases hlj : lookupKey s.rejects i with
    | some c => simp [receiveData, hi, hres, hlj]
    | none => simp [receiveData, hi, hres, hlj]

/-- A message bearing an id with no pending entry is a no-op: the state is
untouched (deleting an absent key changes nothing) and nothing fires. -/
theorem receiveData_noop {s : MuxState} {d : WorkerData} {i : Nat}
    (hi : d.i = some i)
    (hres : lookupKey s.resolves i = none) (hrej : lookupKey s.rejects i = none) :
    receiveData s d = (s, RecvAction.idle) := by
  have h1 : deleteKey s.resolves i = s.resolves := deleteKey_of_lookup_none hres
  have h2 : deleteKey s.rejects i = s.rejects := deleteKey_of_lookup_none hrej
  cases hr : d.res with
  | some p => simp [receiveData, hi, hr, hres, hrej, h1, h2]
  | none => simp [receiveData, hi, hr, hres, hrej, h1, h2]

/-- Bookkeeping invariant maintained by the multiplexer: pending-map keys
are pairwise distinct and never exceed the `sequence` counter. -/
def MuxInv (s : MuxState) : Prop :=
  (s.resolves.map (fun p => p.1)).Nodup ∧ (s.rejects.map (fun p => p.1)).Nodup ∧
  (∀ p ∈ s.resolves, p.1 ≤ s.sequence) ∧ (∀ p ∈ s.rejects, p.1 ≤ s.sequence)

theorem muxInv_init : MuxInv initMux := by
  refine ⟨List.nodup_nil, List.nodup_nil, ?_, ?_⟩ <;> intro p hp <;>
    exact absurd hp (by simp [initMux])

theorem muxInv_send {s : MuxState} (h : MuxInv s) (c : Nat) :
    MuxInv (sendMsg s c).1 := by
  obtain ⟨h1, h2, h3, h4⟩ := h
  refine ⟨?_, ?_, ?_, ?_⟩
  · show (List.map (fun p => p.1) ((s.sequence + 1, c) :: s.resolves)).Nodup
    rw [List.map_cons, List.nodup_cons]
    exact ⟨fun hmem => by
      obtain ⟨p, hp, hpk⟩ := List.mem_map.1 hmem
      have := h3 p hp
      omega, h1⟩
  · show (List.map (fun p => p.1) ((s.sequence + 1, c) :: s.rejects)).Nodup
    rw [List.map_cons, List.nodup_cons]
    exact ⟨fun hmem => by
      obtain ⟨p, hp, hpk⟩ := List.mem_map.1 hmem
      have := h4 p hp
      omega, h2⟩
  · intro p hp
    rcases List.mem_cons.1 hp with hh | hh
    · rw [hh]; exact le_rfl
    · exact Nat.le_succ_of_le (h3 p hh)
  · intro p hp
    rcases List.mem_cons.1 hp with hh | hh
    · rw [hh]; exact le_rfl
    · exact Nat.le_succ_of_le (h4 p hh)

theorem nodup_keys_deleteKey {m : List (Nat × Nat)} (k : Nat)
    (h : (m.map (fun p => p.1)).Nodup) :
    ((deleteKey m k).map (fun p => p.1)).Nodup :=
  ((List.filter_sublist m).map (fun p => p.1)).nodup h

theorem muxInv_recv {s : MuxState} (h : MuxInv s) (d : WorkerData) :
    MuxInv (receiveData s d).1 := by
  obtain ⟨h1, h2, h3, h4⟩ := h
  cases hi : d.i with
  | none => rw [receiveData_none hi]; exact ⟨h1, h2, h3, h4⟩
  | some j =>
    rw [receiveData_state hi]
    refine ⟨nodup_keys_deleteKey j h1, nodup_keys_deleteKey j h2, ?_, ?_⟩
    · intro p hp
      exact h3 p (mem_deleteKey hp).1
    · intro p hp
      exact h4 p (mem_deleteKey hp).1

theorem muxInv_run (acts : List MuxAction) : ∀ {s : MuxState}, MuxInv s →
    MuxInv (muxRun s acts) := by
  induction acts with
  | nil => intro s h; exact h
  | cons a rest ih =>
    intro s h
    cases a with
    | send c => exact ih (muxInv_send h c)
    | recv d => exact ih (muxInv_recv h d)

/-- Once an already-allocated id has no pending entry, no later action can
recreate one: `_send` only allocates fresh ids above the counter. -/
theorem muxRun_lookup_none (acts : List MuxAction) : ∀ (s : MuxState) (i : Nat),
    i ≤ s.sequence →
    (∀ p ∈ s.resolves, p.1 ≤ s.sequence) → (∀ p ∈ s.rejects, p.1 ≤ s.sequence) →
    lookupKey s.resolves i = none → lookupKey s.rejects i = none →
    i ≤ (muxRun s acts).sequence ∧
    lookupKey (muxRun s acts).resolves i = none ∧
    lookupKey (muxRun s acts).rejects i = none := by
  induction acts with
  | nil => intro s i hi _ _ hr hj; exact ⟨hi, hr, hj⟩
  | cons a rest ih =>
    intro s i hi hb3 hb4 hr hj
    cases a with
    | send c =>
      show _ ∧ _ ∧ _
      have hlr : lookupKey (sendMsg s c).1.resolves i = none := by
        show lookupKey ((s.sequence + 1, c) :: s.resolves) i = none
        unfold lookupKey
        rw [List.find?_cons]
        have : ((s.sequence + 1 : Nat) == i) = false := by
          simp only [beq_eq_false_iff_ne, ne_eq]
          omega
        rw [this]
        exact hr
      have hlj : lookupKey (sendMsg s c).1.rejects i = none := by
        show lookupKey ((s.sequence + 1, c) :: s.rejects) i = none
        unfold lookupKey
        rw [List.find?_cons]
        have : ((s.sequence + 1 : Nat) == i) = false := by
          simp only [beq_eq_false_iff_ne, ne_eq]
          omega
        rw [this]
        exact hj
      refine ih (sendMsg s c).1 i (Nat.le_succ_of_le hi) ?_ ?_ hlr hlj
      · intro p hp
        rcases List.mem_cons.1 hp with hh | hh
        · rw [hh]; exact le_rfl
        · exact Nat.le_succ_of_le (hb3 p hh)
      · intro p hp
        rcases List.mem_cons.1 hp with hh | hh
        · rw [hh]; exact le_rfl
        · exact Nat.le_succ_of_le (hb4 p hh)
    | recv d =>
      show _ ∧ _ ∧ _
      cases hdi : d.i with
      | none =>
        rw [muxRun]
        rw [receiveData_none hdi]
        exact ih s i hi hb3 hb4 hr hj
      | some j =>
        rw [muxRun]
        rw [receiveData_state hdi]
        refine ih _ i hi ?_ ?_ ?_ ?_
        · intro p hp
          exact hb3 p (mem_deleteKey hp).1
        · intro p hp
          exact hb4 p (mem_deleteKey hp).1
        · exact lookupKey_deleteKey_none j hr
        · exact lookupKey_deleteKey_none j hj

theorem sendIdsOf_bound (acts : List MuxAction) : ∀ (s : MuxState) (j : Nat),
    j ∈ sendIdsOf s acts → s.sequence < j := by
  induction acts with
  | nil => intro s j hj; exact absurd hj (by simp [sendIdsOf])
  | cons a rest ih =>
    intro s j hj
    cases a with
    | send c =>
      rcases List.mem_cons.1 hj with hh | hh
      · rw [hh]; exact Nat.lt_succ_self _
      · have := ih (sendMsg s c).1 j hh
        show s.sequence < j
        have hseq : (sendMsg s c).1.sequence = s.sequence + 1 := rfl
        omega
    | recv d =>
      have hh2 : j ∈ sendIdsOf (receiveData s d).1 rest := hj
      have := ih (receiveData s d).1 j hh2
      rw [receiveData_sequence] at this
      exact this

theorem sendIdsOf_nodup (acts : List MuxAction) : ∀ (s : MuxState),
    (sendIdsOf s acts).Nodup := by
  induction acts with
  | nil => intro s; exact List.nodup_nil
  | cons a rest ih =>
    intro s
    cases a with
    | send c =>
      rw [sendIdsOf]
      rw [List.nodup_cons]
      refine ⟨fun hmem => ?_, ih _⟩
      have := sendIdsOf_bound rest (sendMsg s c).1 _ hmem
      have hseq : (sendMsg s c).1.sequence = s.sequence + 1 := rfl
      have hval : (sendMsg s c).2 = s.sequence + 1 := rfl
      omega
    | recv d => exact ih (receiveData s d).1

/-- C4: Pending-request bookkeeping invariant.  In every state reachable by a
trace of `_send` calls and incoming messages: (1) each pending map holds at
most one live entry per sequence id; (2) the ids assigned by the sends of the
trace are pairwise distinct — an id is never reused; (3) a message bearing an
id never reaches the throw branch of `_receive`; (4) processing a message
bearing id `i` removes the entry for `i`, and — provided `i` is an id the
counter has already covered — every subsequent message bearing `i`, after any
further actions, is a no-op: state unchanged, nothing fired, nothing thrown;
(5) a message bearing an id with no pending entry is a no-op. -/
theorem mux_pending_bookkeeping (acts : List MuxAction) (d : WorkerData) (i : Nat)
    (hi : d.i = some i) :
    ((muxRun initMux acts).resolves.map (fun p => p.1)).Nodup ∧
    ((muxRun initMux acts).rejects.map (fun p => p.1)).Nodup ∧
    (sendIdsOf initMux acts).Nodup ∧
    (receiveData (muxRun initMux acts) d).2 ≠ RecvAction.threw ∧
    lookupKey ((receiveData (muxRun initMux acts) d).1).resolves i = none ∧
    lookupKey ((receiveData (muxRun initMux acts) d).1).rejects i = none ∧
    (i ≤ (muxRun initMux acts).sequence →
      ∀ (acts2 : List MuxAction) (d2 : WorkerData), d2.i = some i →
        receiveData (muxRun ((receiveData (muxRun initMux acts) d).1) acts2) d2
          = (muxRun ((receiveData (muxRun initMux acts) d).1) acts2,
             RecvAction.idle)) ∧
    (lookupKey (muxRun initMux acts).resolves i = none →
     lookupKey (muxRun initMux acts).rejects i = none →
       receiveData (muxRun initMux acts) d = (muxRun initMux acts, RecvAction.idle)) := by
  obtain ⟨hn1, hn2, hb3, hb4⟩ := muxInv_run acts muxInv_init
  have hstate := receiveData_state (s := muxRun initMux acts) hi
  have hdel1 : lookupKey ((receiveData (muxRun initMux acts) d).1).resolves i = none := by
    rw [hstate]
    exact lookupKey_deleteKey_self _ i
  have hdel2 : lookupKey ((receiveData (muxRun initMux acts) d).1).rejects i = none := by
    rw [hstate]
    exact lookupKey_deleteKey_self _ i
  refine ⟨hn1, hn2, sendIdsOf_nodup acts initMux, receiveData_some_not_threw hi,
    hdel1, hdel2, ?_, ?_⟩
  · intro hseq acts2 d2 hd2
    have hb3' : ∀ p ∈ ((receiveData (muxRun initMux acts) d).1).resolves,
        p.1 ≤ ((receiveData (muxRun initMux acts) d).1).sequence := by
      intro p hp
      rw [receiveData_sequence]
      exact hb3 p (receiveData_resolves_sub hp)
    have hb4' : ∀ p ∈ ((receiveData (muxRun initMux acts) d).1).rejects,
        p.1 ≤ ((receiveData (muxRun initMux acts) d).1).sequence := by
      intro p hp
      rw [receiveData_sequence]
      exact hb4 p (receiveData_rejects_sub hp)
    have hseq' : i ≤ ((receiveData (muxRun initMux acts) d).1).sequence := by
      rw [receiveData_sequence]
      exact hseq
    obtain ⟨_, hr, hj⟩ :=
      muxRun_lookup_none acts2 ((receiveData (muxRun initMux acts) d).1) i
        hseq' hb3' hb4' hdel1 hdel2
    exact receiveData_noop hd2 hr hj
  · intro hr hj
    exact receiveData_noop hi hr hj

/-- Witness for `mux_pending_bookkeeping`: two sends, then the response for
id 1 is processed; a duplicate response for id 1 arriving after a further
send is a no-op. -/
theorem mux_pending_bookkeeping_witness :
    (((muxRun initMux [MuxAction.send 1, MuxAction.send 2]).resolves.map
        (fun p => p.1)).Nodup ∧
      ((muxRun initMux [MuxAction.send 1, MuxAction.send 2]).rejects.map
        (fun p => p.1)).Nodup ∧
      (sendIdsOf initMux [MuxAction.send 1, MuxAction.send 2]).Nodup ∧
      (receiveData (muxRun initMux [MuxAction.send 1, MuxAction.send 2])
        ⟨some 1, some "a", none, none⟩).2 ≠ RecvAction.threw ∧
      lookupKey ((receiveData (muxRun initMux [MuxAction.send 1, MuxAction.send 2])
        ⟨some 1, some "a", none, none⟩).1).resolves 1 = none ∧
      lookupKey ((receiveData (muxRun initMux [MuxAction.send 1, MuxAction.send 2])
        ⟨some 1, some "a", none, none⟩).1).rejects 1 = none ∧
      (1 ≤ (muxRun initMux [MuxAction.send 1, MuxAction.send 2]).sequence →
        ∀ (acts2 : List MuxAction) (d2 : WorkerData), d2.i = some 1 →
          receiveData (muxRun ((receiveData
              (muxRun initMux [MuxAction.send 1, MuxAction.send 2])
              ⟨some 1, some "a", none, none⟩).1) acts2) d2
            = (muxRun ((receiveData
                (muxRun initMux [MuxAction.send 1, MuxAction.send 2])
                ⟨some 1, some "a", none, none⟩).1) acts2, RecvAction.idle)) ∧
      (lookupKey (muxRun initMux [MuxAction.send 1, MuxAction.send 2]).resolves 1 = none →
       lookupKey (muxRun initMux [MuxAction.send 1, MuxAction.send 2]).rejects 1 = none →
         receiveData (muxRun initMux [MuxAction.send 1, MuxAction.send 2])
           ⟨some 1, some "a", none, none⟩
           = (muxRun initMux [MuxAction.send 1, MuxAction.send 2], RecvAction.idle))) ∧
    receiveData (muxRun ((receiveData
        (muxRun initMux [MuxAction.send 1, MuxAction.send 2])
        ⟨some 1, some "a", none, none⟩).1) [MuxAction.send 3])
      ⟨some 1, none, some "late", none⟩
      = (muxRun ((receiveData
          (muxRun initMux [MuxAction.send 1, MuxAction.send 2])
          ⟨some 1, some "a", none, none⟩).1) [MuxAction.send 3], RecvAction.idle) := by
  have h := mux_pending_bookkeeping [MuxAction.send 1, MuxAction.send 2]
    ⟨some 1, some "a", none, none⟩ 1 rfl
  refine ⟨h, ?_⟩
  exact h.2.2.2.2.2.2.1 (by decide) [MuxAction.send 3]
    ⟨some 1, none, some "late", none⟩ rfl

/-! ### Query engine (`src/worker.js`)

`runQuery`'s prefix-scan branch (the `key !== 'docs'` case, lines 100-123):

```js
const { id, filter, sort, limit, start } = q;
let { rows } = await localDB.allDocs({
  limit, include_docs: true, startkey: start || id, endkey: `${id}￰`,
});
if (filter !== undefined) {
  rows = rows.filter(row => compare(row.doc[filter[0]], filter[2], filter[1]));
}
res = rows.map(row => row.doc);
if (sort !== undefined) {
  res = res.sort((x, y) => x[sort].localeCompare(y[sort]));
}
```

A document is a finite field-to-value map (association list of strings);
the local database is the list of `(\_id, doc)` rows that `allDocs` ranges
over.  The filter is the triple at positions 0/1/2 of the source's filter
array — comparison field, comparison operator, comparison value (named
`for` / `when` / `if` in the package's type declarations). -/

/-- A stored document body: field-to-value map. -/
abbrev Doc := List (String × String)

/-- JS `doc[field]`: `none` models `undefined` (field absent). -/
def getField (doc : Doc) (field : String) : Option String :=
  (doc.find? (fun p => p.1 == field)).map (fun p => p.2)

/-- The filter of a structured query: `filter[0]` = comparison field (`for`),
`filter[1]` = comparison operator (`when`, optional), `filter[2]` =
comparison value (`if`). -/
structure QueryFilter where
  field : String
  operator : Option String := none
  value : String
  deriving DecidableEq

/-- A structured query (`src/worker.js` `Query` typedef). -/
structure Query where
  id : String
  filter : Option QueryFilter := none
  sort : Option String := none
  limit : Option Nat := none
  start : Option String := none
  deriving DecidableEq

/-- `compare` (src/worker.js lines 56-64):

```js
switch (operator) {
  case '<=': return valueOne <= valueTwo;
  case '>=': return valueOne >= valueTwo;
  case '<': return valueOne < valueTwo;
  case '>': return valueOne > valueTwo;
  default: return valueOne === valueTwo;
}
``` -/
def compare (valueOne valueTwo : String) (operator : Option String) : Bool :=
  if operator = some "<=" then jsLe valueOne valueTwo
  else if operator = some ">=" then jsLe valueTwo valueOne
  else if operator = some "<" then jsLt valueOne valueTwo
  else if operator = some ">" then jsLt valueTwo valueOne
  else valueOne == valueTwo

/-- The local database as ranged over by `allDocs`: the `(\_id, doc)` rows. -/
abbrev Store := List (String × Doc)

/-- PouchDB `allDocs({startkey, endkey, limit, include_docs: true})`: the
rows whose `_id` lies in the inclusive range `[startkey, endkey]`, truncated
to `limit` rows when a limit is given. -/
def allDocsRange (store : Store) (startkey endkey : String) (limit : Option Nat) :
    Store :=
  let ranged := store.filter (fun row => jsLe startkey row.1 && jsLe row.1 endkey)
  match limit with
  | some n => ranged.take n
  | none => ranged

/-- JS `start || id`: the scan starts at `start` when it is a non-empty
(truthy) string, else at `id`. -/
def effectiveStart (start : Option String) (id : String) : String :=
  match start with
  | some s => if s == "" then id else s
  | none => id

/-- The sort key `x[sort]` of a document.  The source throws a `TypeError`
when the sort field is absent; theorems about `runQuery` therefore assume
every document carries the sort field, under which assumption the `""`
default here is never consulted. -/
def sortKey (d : Doc) (s : String) : String := (getField d s).getD ""

/-- The prefix-scan branch of `runQuery` (src/worker.js lines 100-123).  A
document with the comparison field absent fails the filter under every
operator (JS: relational comparison and strict equality of `undefined`
against a string are both false).  JS `Array#sort` is a stable comparator
sort (ES2019); it is modelled by the stable `List.insertionSort`, ordering
ascending by `localeCompare` on the sort field. -/
def runQuery (store : Store) (q : Query) : List Doc :=
  let startkey := effectiveStart q.start q.id
  let rows : Store := allDocsRange store startkey (q.id ++ "￰") q.limit
  let rows2 : Store := match q.filter with
    | some f => rows.filter (fun row =>
        match getField row.2 f.field with
        | some v => compare v f.value f.operator
        | none => false)
    | none => rows
  let res : List Doc := rows2.map (fun row => row.2)
  match q.sort with
  | some s =>
    List.insertionSort (fun x y => localeLe (sortKey x s) (sortKey y s) = true) res
  | none => res

theorem effectiveStart_eq {start : Option String} {id : String}
    (h : start ≠ some "") : effectiveStart start id = start.getD id := by
  cases start with
  | none => rfl
  | some s =>
    have hne : s ≠ "" := fun hh => h (by rw [hh])
    simp [effectiveStart, hne]

/-- C2: Query Engine prefix-scan mode.  For a structured query with a filter
(comparison field / operator / value), a sort field and no limit, `runQuery`
returns exactly the document bodies whose `_id` lies in the inclusive range
from `start` (when given; else `id`) up to `id` followed by the sentinel
`'￰'` and that satisfy the single-field comparison `doc[field] <op> value`
(a missing operator meaning equality), ordered ascending by `localeCompare`
on the sort field.  "Exactly those, so ordered" is stated as: the result is
a permutation of the filtered range rows' bodies and is pairwise ascending
on the sort key.  The hypotheses scope the statement to inputs on which the
model is faithful: `start` is not the empty string (JS `start || id` treats
`""` as absent) and every stored document carries the sort field (the
source's comparator would throw on one that does not). -/
theorem runQuery_prefix_scan (store : Store) (f : QueryFilter) (s idp : String)
    (start : Option String) (hstart : start ≠ some "")
    (hsort : ∀ row ∈ store, (getField row.2 s).isSome = true) :
    (runQuery store
        {id := idp, filter := some f, sort := some s, limit := none, start := start}).Perm
      ((store.filter (fun row =>
          (jsLe (start.getD idp) row.1 && jsLe row.1 (idp ++ "￰")) &&
          (match getField row.2 f.field with
           | some v => compare v f.value f.operator
           | none => false))).map (fun row => row.2)) ∧
    (runQuery store
        {id := idp, filter := some f, sort := some s, limit := none, start := start}).Pairwise
      (fun x y => localeLe (sortKey x s) (sortKey y s) = true) := by
  have hq : runQuery store
      {id := idp, filter := some f, sort := some s, limit := none, start := start}
    = List.insertionSort (fun x y => localeLe (sortKey x s) (sortKey y s) = true)
        (((store.filter (fun row => jsLe (start.getD idp) row.1 &&
              jsLe row.1 (idp ++ "￰"))).filter
            (fun row =>
              match getField row.2 f.field with
              | some v => compare v f.value f.operator
              | none => false)).map (fun row => row.2)) := by
    simp only [runQuery, allDocsRange, effectiveStart_eq hstart]
  have hff : ((store.filter (fun row => jsLe (start.getD idp) row.1 &&
        jsLe row.1 (idp ++ "￰"))).filter
      (fun row =>
        match getField row.2 f.field with
        | some v => compare v f.value f.operator
        | none => false))
      = store.filter (fun row =>
          (jsLe (start.getD idp) row.1 && jsLe row.1 (idp ++ "￰")) &&
          (match getField row.2 f.field with
           | some v => compare v f.value f.operator
           | none => false)) := by
    rw [List.filter_filter]
    exact List.filter_congr (fun row _ => Bool.and_comm _ _)
  constructor
  · rw [hq, hff]
    exact List.perm_insertionSort _ _
  · rw [hq]
    haveI htot : IsTotal Doc (fun x y => localeLe (sortKey x s) (sortKey y s) = true) :=
      ⟨fun a b => jsLe_total (sortKey a s) (sortKey b s)⟩
    haveI htrans : IsTrans Doc (fun x y => localeLe (sortKey x s) (sortKey y s) = true) :=
      ⟨fun a b c hab hbc => jsLe_trans hab hbc⟩
    exact List.sorted_insertionSort _ _

/-- Witness for `runQuery_prefix_scan`: the spec's own example — the query
`id = 'book'`, filter `year >= '2015'`, sort by `title` — against a fixture
of three documents, of which only the 2016 book survives.  The concrete
output is also evaluated. -/
theorem runQuery_prefix_scan_witness :
    ((runQuery
        [("book:1", [("year", "2014"), ("title", "Beta")]),
         ("book:2", [("year", "2016"), ("title", "Alpha")]),
         ("car:1", [("year", "2017"), ("title", "Car")])]
        {id := "book", filter := some ⟨"year", some ">=", "2015"⟩,
         sort := some "title", limit := none, start := none}).Perm
      (([("book:1", [("year", "2014"), ("title", "Beta")]),
         ("book:2", [("year", "2016"), ("title", "Alpha")]),
         ("car:1", [("year", "2017"), ("title", "Car")])].filter
          (fun row : String × Doc =>
            (jsLe ((none : Option String).getD "book") row.1 &&
              jsLe row.1 ("book" ++ "￰")) &&
            (match getField row.2 "year" with
             | some v => compare v "2015" (some ">=")
             | none => false))).map (fun row => row.2)) ∧
      (runQuery
        [("book:1", [("year", "2014"), ("title", "Beta")]),
         ("book:2", [("year", "2016"), ("title", "Alpha")]),
         ("car:1", [("year", "2017"), ("title", "Car")])]
        {id := "book", filter := some ⟨"year", some ">=", "2015"⟩,
         sort := some "title", limit := none, start := none}).Pairwise
      (fun x y => localeLe (sortKey x "title") (sortKey y "title") = true)) ∧
    runQuery
        [("book:1", [("year", "2014"), ("title", "Beta")]),
         ("book:2", [("year", "2016"), ("title", "Alpha")]),
         ("car:1", [("year", "2017"), ("title", "Car")])]
        {id := "book", filter := some ⟨"year", some ">=", "2015"⟩,
         sort := some "title", limit := none, start := none}
      = [[("year", "2016"), ("title", "Alpha")]] := by
  refine ⟨runQuery_prefix_scan _ ⟨"year", some ">=", "2015"⟩ "title" "book" none
    (by decide) (by decide), ?_⟩
  decide

/-! ### Change dispatcher fan-out (`processItem`)

A completed query result is either a doc-id-mode result — the raw `allDocs`
response, which has a `rows` array of `(id, doc)` rows — or a structured
query result: a flat list of document bodies (the worker's `runQuery` maps
rows to `row.doc` in that case, so the result has no `rows` field and
`if (res.rows)` is falsy). -/

/-- One row of a doc-id-mode (`allDocs({keys})`) result; `doc` is absent for
a missing document. -/
structure RowRes where
  id : String
  doc : Option Doc
  deriving DecidableEq

/-- A completed query result as inspected by `processItem`. -/
inductive QueryRes where
  | withRows (rows : List RowRes)
  | docList (docs : List Doc)
  deriving DecidableEq

/-- Payload of a push-event. -/
inductive PushData where
  | rowDoc (doc : Option Doc)
  | whole (res : QueryRes)
  deriving DecidableEq

/-- A push-event posted to the controller: mutation name, vuex key, data. -/
structure Push where
  c : String
  key : String
  data : PushData
  deriving DecidableEq

/-- `processItem` of the current revision (src/worker.js lines 151-169):

```js
const { key, res } = await input;
if (res.rows) {
  res.rows.forEach(row => postMessage({
    c: `${namespace}/setQueryResult`, d: { key: row.id, data: row.doc },
  }));
}
// custom query result
postMessage({ c: `${namespace}/setQueryResult`, d: { key, data: res }});
```

Note the second `postMessage` is not in an `else` branch: it runs for every
result, including doc-id-mode ones. -/
def processItem (ns key : String) (res : QueryRes) : List Push :=
  (match res with
   | QueryRes.withRows rows =>
     rows.map (fun row => ⟨ns ++ "/setQueryResult", row.id, PushData.rowDoc row.doc⟩)
   | QueryRes.docList _ => []) ++
  [⟨ns ++ "/setQueryResult", key, PushData.whole res⟩]

/-- `processItem` of the earlier revision (db.worker.js lines 99-117), where
the keyed push sits in an `else` branch — doc-id-mode results fan out only
per row, structured results push only once under the query key. -/
def processItemOld (ns key : String) (res : QueryRes) : List Push :=
  match res with
  | QueryRes.withRows rows =>
    rows.map (fun row => ⟨ns ++ "/setQueryResult", row.id, PushData.rowDoc row.doc⟩)
  | QueryRes.docList _ => [⟨ns ++ "/setQueryResult", key, PushData.whole res⟩]

/-- C3: Change Dispatcher fan-out, evaluated at a failing input.  For a
completed doc-id-mode query (a one-row `allDocs` result under key `docs`,
namespace `db`), the current revision's `processItem` emits BOTH kinds of
push-event — the per-row push keyed by the document's own id AND a push
keyed by the query key carrying the raw result — contradicting the claim
that the two kinds are exclusive; the earlier `db.worker.js` revision (and
every other revision in the repository) emits only the per-row push. -/
theorem processItem_emits_both_kinds :
    processItem "db" "docs"
        (QueryRes.withRows [⟨"doc-a", some [("x", "1")]⟩])
      = [⟨"db/setQueryResult", "doc-a", PushData.rowDoc (some [("x", "1")])⟩,
         ⟨"db/setQueryResult", "docs",
          PushData.whole (QueryRes.withRows [⟨"doc-a", some [("x", "1")]⟩])⟩] ∧
    processItemOld "db" "docs"
        (QueryRes.withRows [⟨"doc-a", some [("x", "1")]⟩])
      = [⟨"db/setQueryResult", "doc-a", PushData.rowDoc (some [("x", "1")])⟩] ∧
    processItem "db" "shelf" (QueryRes.docList [[("x", "1")]])
      = [⟨"db/setQueryResult", "shelf",
          PushData.whole (QueryRes.docList [[("x", "1")]])⟩] :=
  ⟨rfl, rfl, rfl⟩

/-! ### Reactive-query registry (`register` / `unregister`, src/worker.js
lines 249-285)

The worker-global `queries` is a `Map` from key to either the list of doc
ids (under the reserved key `'docs'`) or a structured query object. -/

/-- A registry value: the reserved doc-id aggregate or a structured query. -/
inductive RegVal where
  | docs (ids : List String)
  | custom (q : Query)
  deriving DecidableEq

/-- The `queries` map, as an insertion-ordered association list. -/
abbrev Registry := List (String × RegVal)

/-- `Map.get`. -/
def regGet (m : Registry) (k : String) : Option RegVal :=
  (m.find? (fun p => p.1 == k)).map (fun p => p.2)

/-- `Map.has`. -/
def regHas (m : Registry) (k : String) : Bool := (regGet m k).isSome

/-- `Map.set`: replace the value under an existing key, else append. -/
def regSet (m : Registry) (k : String) (v : RegVal) : Registry :=
  if regHas m k then m.map (fun p => if p.1 == k then (k, v) else p)
  else m ++ [(k, v)]

/-- `Map.delete`. -/
def regDelete (m : Registry) (k : String) : Registry :=
  m.filter (fun p => p.1 ≠ k)

/-- The argument of `register`: a doc `_id` string or a query object. -/
inductive RegArg where
  | docId (s : String)
  | query (q : Query)
  deriving DecidableEq

/-- `register` (src/worker.js lines 249-270):

```js
if (typeof q === 'string') {
  key = q;
  if (!queries.has('docs')) queries.set('docs', [key]);
  else { const keys = queries.get('docs'); queries.set('docs', [...keys, key]); }
} else {
  queries.set(key, q);
}
```

Result `none` models the `TypeError` thrown by spreading a registry value
that is not an array (a query object stored under `'docs'`); `key` is the
caller-supplied name, which the doc-id branch overwrites with the id. -/
def register (queries : Registry) (q : RegArg) (key : String) : Option Registry :=
  match q with
  | RegArg.docId s =>
    if regHas queries "docs" = false then
      some (regSet queries "docs" (RegVal.docs [s]))
    else
      match regGet queries "docs" with
      | some (RegVal.docs keys) =>
        some (regSet queries "docs" (RegVal.docs (keys ++ [s])))
      | _ => none
  | RegArg.query qq => some (regSet queries key (RegVal.custom qq))

/-- `unregister` (src/worker.js lines 277-285):

```js
if (!isDoc) {
  queries.delete(key);
} else {
  const docs = queries.get('docs');
  queries.set('docs', docs.filter(doc => doc !== key));
}
```

Result `none` models the `TypeError` thrown when `queries.get('docs')` is
`undefined` (no doc aggregate) or not an array, so that `.filter` is not a
function. -/
def unregister (queries : Registry) (key : String) (isDoc : Bool) : Option Registry :=
  if isDoc = false then some (regDelete queries key)
  else
    match regGet queries "docs" with
    | some (RegVal.docs docs) =>
      some (regSet queries "docs" (RegVal.docs (docs.filter (fun doc => doc ≠ key))))
    | _ => none

/-- C8: Doc-aggregate registry algebra.  From the empty registry,
`register('doc-a'); register('doc-b'); unregister('doc-a', true)` leaves the
reserved `docs` aggregate equal to exactly `['doc-b']`: both string
registrations merge into the single reserved entry and doc-mode
unregistration removes only the named id. -/
theorem register_unregister_doc_aggregate :
    ((register [] (RegArg.docId "doc-a") "doc-a").bind
      (fun r => register r (RegArg.docId "doc-b") "doc-b")).bind
      (fun r => unregister r "doc-a" true)
      = some [("docs", RegVal.docs ["doc-b"])] := by
  decide

/-- C10: doc-mode `unregister` against a registry with no `docs` entry
throws a `TypeError` (modelled by `none`) instead of being a no-op; it is
safe precisely under the precondition that the `docs` aggregate exists as a
doc-id list. -/
theorem unregister_doc_requires_aggregate (reg : Registry) (key : String) :
    (regGet reg "docs" = none → unregister reg key true = none) ∧
    (∀ ids, regGet reg "docs" = some (RegVal.docs ids) →
      unregister reg key true
        = some (regSet reg "docs" (RegVal.docs (ids.filter (fun doc => doc ≠ key))))) := by
  constructor
  · intro h
    simp [unregister, h]
  · intro ids h
    simp [unregister, h]

/-- Witness for `unregister_doc_requires_aggregate`: on the empty registry
doc-mode unregister throws; after one doc registration it succeeds. -/
theorem unregister_doc_requires_aggregate_witness :
    unregister [] "doc-a" true = none ∧
    unregister [("docs", RegVal.docs ["doc-a"])] "doc-a" true
      = some (regSet [("docs", RegVal.docs ["doc-a"])] "docs"
          (RegVal.docs (["doc-a"].filter (fun doc => doc ≠ "doc-a")))) := by
  refine ⟨(unregister_doc_requires_aggregate [] "doc-a").1 (by decide), ?_⟩
  exact (unregister_doc_requires_aggregate [("docs", RegVal.docs ["doc-a"])] "doc-a").2
    ["doc-a"] (by decide)

/-! ### Upsert helper (`upsert` / `_tryPut`, src/db.js lines 180-221)

```js
async upsert(docId, diffFun) {
  let doc;
  try { doc = await this.get(docId); }
  catch (err) { if (err.status !== 404) throw err; doc = {}; }
  const docRev = doc._rev;
  const newDoc = diffFun(doc);
  if (!newDoc) return { updated: false, rev: docRev, id: docId };
  newDoc._id = docId; newDoc._rev = docRev;
  return this._tryPut(newDoc, diffFun);
}
async _tryPut(doc, diffFun) {
  try { const res = await this.put(doc);
        return { updated: true, rev: res.rev, id: doc._id }; }
  catch (err) { if (err.status !== 409) throw err;
                return this.upsert(doc._id, diffFun); }
}
```

The storage collaborator is modelled as an oracle: a list of rounds, one
`get` outcome and one `put` outcome per loop iteration.  The run also emits
the trace of storage operations actually performed.  `none` as the overall
outcome means the oracle ran out of rounds while the loop was still
retrying (the source loop is unbounded). -/

/-- A JS document as handled by `upsert`: the reserved `_id` / `_rev` fields
(absent on a fresh doc) and the user fields. -/
structure JsDoc where
  id : Option String := none
  rev : Option String := none
  fields : List (String × String) := []
  deriving DecidableEq

/-- `doc = {}` — the fresh document used when `get` fails with 404. -/
def emptyDoc : JsDoc := {}

/-- A storage failure, carrying the `status` code `upsert` branches on. -/
structure ErrObj where
  status : Nat
  deriving DecidableEq

/-- A successful `put` response (`res.rev`). -/
structure PutOk where
  rev : String
  deriving DecidableEq

/-- The value `upsert` resolves with. -/
structure UpsertRes where
  updated : Bool
  rev : Option String
  id : String
  deriving DecidableEq

/-- One loop iteration's storage outcomes. -/
structure Round where
  getRes : Except ErrObj JsDoc
  putRes : Except ErrObj PutOk

/-- A performed storage operation. -/
inductive DbOp where
  | get (docId : String)
  | put (doc : JsDoc)
  deriving DecidableEq

/-- The `upsert` / `_tryPut` loop run against the round oracle.  Each
iteration: read (404 ⇒ fresh `{}`; other failures propagate), save the read
revision, apply the diff (falsy ⇒ `{updated:false}` without writing), reset
`_id` / `_rev` on the diffed doc, write (409 ⇒ restart from the read with
the same diff; other failures propagate). -/
def upsertGo : List Round → (JsDoc → Option JsDoc) → String →
    Option (Except ErrObj UpsertRes) × List DbOp
  | [], _, _ => (none, [])
  | r :: rest, diffFun, docId =>
    let docE : Except ErrObj JsDoc :=
      match r.getRes with
      | Except.ok d => Except.ok d
      | Except.error err =>
        if err.status ≠ 404 then Except.error err else Except.ok emptyDoc
    match docE with
    | Except.error err => (some (Except.error err), [DbOp.get docId])
    | Except.ok doc =>
      let docRev := doc.rev
      match diffFun doc with
      | none =>
        (some (Except.ok {updated := false, rev := docRev, id := docId}),
         [DbOp.get docId])
      | some nd =>
        let newDoc : JsDoc := { nd with id := some docId, rev := docRev }
        match r.putRes with
        | Except.ok res =>
          (some (Except.ok {updated := true, rev := some res.rev, id := docId}),
           [DbOp.get docId, DbOp.put newDoc])
        | Except.error err =>
          if err.status ≠ 409 then
            (some (Except.error err), [DbOp.get docId, DbOp.put newDoc])
          else
            ((upsertGo rest diffFun docId).1,
             DbOp.get docId :: DbOp.put newDoc :: (upsertGo rest diffFun docId).2)

/-- C6: Upsert error policy.  (a) A read failure with status ≠ 404 rejects
`upsert` immediately: the loop aborts after the single read, no write is
attempted, later rounds are never consulted.  (b) A write failure with
status ≠ 409 rejects immediately after that write.  (c) A write failure
with status 409 restarts the loop from the read with the same diff
function: the run continues exactly as a fresh `upsert` on the remaining
rounds, after recording the conflicted read/write.  (d) A read failure with
status 404 behaves exactly as a successful read of the empty document. -/
theorem upsert_error_policy (rest : List Round) (g : Except ErrObj JsDoc)
    (pr : Except ErrObj PutOk) (diffFun : JsDoc → Option JsDoc) (docId : String) :
    (∀ err : ErrObj, g = Except.error err → err.status ≠ 404 →
      upsertGo (⟨g, pr⟩ :: rest) diffFun docId
        = (some (Except.error err), [DbOp.get docId])) ∧
    (∀ (doc nd : JsDoc) (err : ErrObj), g = Except.ok doc → diffFun doc = some nd →
      pr = Except.error err → err.status ≠ 409 →
      upsertGo (⟨g, pr⟩ :: rest) diffFun docId
        = (some (Except.error err),
           [DbOp.get docId, DbOp.put { nd with id := some docId, rev := doc.rev }])) ∧
    (∀ (doc nd : JsDoc) (err : ErrObj), g = Except.ok doc → diffFun doc = some nd →
      pr = Except.error err → err.status = 409 →
      upsertGo (⟨g, pr⟩ :: rest) diffFun docId
        = ((upsertGo rest diffFun docId).1,
           DbOp.get docId ::
             DbOp.put { nd with id := some docId, rev := doc.rev } ::
               (upsertGo rest diffFun docId).2)) ∧
    (∀ err : ErrObj, g = Except.error err → err.status = 404 →
      upsertGo (⟨g, pr⟩ :: rest) diffFun docId
        = upsertGo (⟨Except.ok emptyDoc, pr⟩ :: rest) diffFun docId) := by
  refine ⟨?_, ?_, ?_, ?_⟩
  · intro err hg hs
    subst hg
    simp [upsertGo, hs]
  · intro doc nd err hg hd hp hs
    subst hg
    subst hp
    simp [upsertGo, hd, hs]
  · intro doc nd err hg hd hp hs
    subst hg
    subst hp
    have hs' : ¬ err.status ≠ 409 := by omega
    simp [upsertGo, hd, hs']
  · intro err hg hs
    subst hg
    simp [upsertGo, hs]

/-- Witness for `upsert_error_policy`, one concrete instance per clause:
a 500 read error propagates; a 400 write error propagates after the write;
a 409 write conflict restarts on the remaining rounds; a 404 read behaves
as reading `{}`. -/
theorem upsert_error_policy_witness :
    (upsertGo [⟨Except.error ⟨500⟩, Except.ok ⟨"1-a"⟩⟩]
        (fun d => some d) "doc1"
      = (some (Except.error ⟨500⟩), [DbOp.get "doc1"])) ∧
    (upsertGo [⟨Except.ok ⟨some "doc1", some "1-a", []⟩, Except.error ⟨400⟩⟩]
        (fun d => some d) "doc1"
      = (some (Except.error ⟨400⟩),
         [DbOp.get "doc1", DbOp.put ⟨some "doc1", some "1-a", []⟩])) ∧
    (upsertGo [⟨Except.ok ⟨some "doc1", some "1-a", []⟩, Except.error ⟨409⟩⟩]
        (fun d => some d) "doc1"
      = ((upsertGo [] (fun d => some d) "doc1").1,
         DbOp.get "doc1" :: DbOp.put ⟨some "doc1", some "1-a", []⟩ ::
           (upsertGo [] (fun d => some d) "doc1").2)) ∧
    (upsertGo [⟨Except.error ⟨404⟩, Except.ok ⟨"1-a"⟩⟩] (fun d => some d) "doc1"
      = upsertGo [⟨Except.ok emptyDoc, Except.ok ⟨"1-a"⟩⟩] (fun d => some d) "doc1") := by
  obtain ⟨h1, h2, h3, h4⟩ := upsert_error_policy [] (Except.error ⟨500⟩)
    (Except.ok ⟨"1-a"⟩) (fun d => some d) "doc1"
  obtain ⟨g1, g2, g3, g4⟩ := upsert_error_policy []
    (Except.ok ⟨some "doc1", some "1-a", []⟩) (Except.error ⟨400⟩)
    (fun d => some d) "doc1"
  obtain ⟨k1, k2, k3, k4⟩ := upsert_error_policy []
    (Except.ok ⟨some "doc1", some "1-a", []⟩) (Except.error ⟨409⟩)
    (fun d => some d) "doc1"
  obtain ⟨m1, m2, m3, m4⟩ := upsert_error_policy [] (Except.error ⟨404⟩)
    (Except.ok ⟨"1-a"⟩) (fun d => some d) "doc1"
  exact ⟨h1 ⟨500⟩ rfl (by decide),
         g2 ⟨some "doc1", some "1-a", []⟩ ⟨some "doc1", some "1-a", []⟩ ⟨400⟩
           rfl rfl rfl (by decide),
         k3 ⟨some "doc1", some "1-a", []⟩ ⟨some "doc1", some "1-a", []⟩ ⟨409⟩
           rfl rfl rfl (by decide),
         m4 ⟨404⟩ rfl (by decide)⟩

/-- C7: Upsert short-circuit.  Whenever the read succeeds and the diff
function returns a falsy value, `upsert` resolves with `{updated: false}`
carrying the read revision and the id, and performs no write: the trace
holds the single read and no `put`, so the stored document state is
untouched. -/
theorem upsert_falsy_diff_no_write (rest : List Round) (pr : Except ErrObj PutOk)
    (diffFun : JsDoc → Option JsDoc) (docId : String) (doc : JsDoc)
    (hd : diffFun doc = none) :
    upsertGo (⟨Except.ok doc, pr⟩ :: rest) diffFun docId
      = (some (Except.ok {updated := false, rev := doc.rev, id := docId}),
         [DbOp.get docId]) := by
  simp [upsertGo, hd]

/-- Witness for `upsert_falsy_diff_no_write`: a constant-`none` diff on an
existing document yields `{updated: false, rev: doc._rev, id}` with only the
read in the trace. -/
theorem upsert_falsy_diff_no_write_witness :
    upsertGo [⟨Except.ok ⟨some "doc1", some "3-c", [("n", "1")]⟩, Except.ok ⟨"4-d"⟩⟩]
        (fun _ => none) "doc1"
      = (some (Except.ok {updated := false, rev := some "3-c", id := "doc1"}),
         [DbOp.get "doc1"]) :=
  upsert_falsy_diff_no_write [] (Except.ok ⟨"4-d"⟩) (fun _ => none) "doc1"
    ⟨some "doc1", some "3-c", [("n", "1")]⟩ rfl

/-! ### `changes` request handler (db.worker.js lines 196-205)

```js
function changes(i, opts) {
  if (opts.live) {
    send({ i, rej: 'Can\x27t use live option from web worker' });
    return;
  }
  localDB.changes(opts)
    .then(res => send({ i, res }))
    .catch(err => send({ i, rej: err }));
}
``` -/

/-- A worker-to-controller reply message (`{i, res}` / `{i, rej}`). -/
structure Reply where
  i : Nat
  res : Option String := none
  rej : Option String := none
  deriving DecidableEq

/-- The options object of a `changes` request; only the `live` flag is
inspected by the handler. -/
structure ChangesOpts where
  live : Bool
  deriving DecidableEq

/-- A call into the storage collaborator. -/
inductive StorageCall where
  | changes (opts : ChangesOpts)
  deriving DecidableEq

/-- The `changes` handler: the replies it sends and the storage calls it
makes, given the storage outcome `storageResult` that `localDB.changes`
would produce. -/
def changesHandler (i : Nat) (opts : ChangesOpts)
    (storageResult : Except String String) : List Reply × List StorageCall :=
  if opts.live then
    ([{i := i, rej := some "Can\x27t use live option from web worker"}], [])
  else
    match storageResult with
    | Except.ok r => ([{i := i, res := some r}], [StorageCall.changes opts])
    | Except.error e => ([{i := i, rej := some e}], [StorageCall.changes opts])

/-- C9: `changes(opts)` with a live feed requested rejects synchronously
with a descriptive error and performs no storage operation: the reply does
not depend on any storage outcome and no changes feed is started. -/
theorem changes_live_rejects (i : Nat) (opts : ChangesOpts)
    (storageResult : Except String String) (h : opts.live = true) :
    changesHandler i opts storageResult
      = ([{i := i, rej := some "Can\x27t use live option from web worker"}], []) := by
  simp [changesHandler, h]

/-- Witness for `changes_live_rejects` at a concrete request. -/
theorem changes_live_rejects_witness :
    changesHandler 5 ⟨true⟩ (Except.ok "feed")
      = ([{i := 5, rej := some "Can\x27t use live option from web worker"}], []) :=
  changes_live_rejects 5 ⟨true⟩ (Except.ok "feed") rfl

/-! ### `waitFor`

Two revisions are cited by the spec.  In db.worker.js (lines 246-293) the
change listener and the timeout callback report through `send({i, res})` /
`send({i, rej})`.  In the current src/worker.js revision (lines 294-337) the
same callbacks end in `return docId` / `return new Error(...)` — returning
into the event emitter and timer machinery, which discards those values —
and the function body itself returns `undefined` immediately, so the caller
future (resolved by the workerize proxy with the function's return value)
never receives the doc id and never rejects on timeout. -/

/-- The `docId` argument: a single doc `_id` or an array of ids. -/
inductive WFId where
  | one (s : String)
  | many (l : List String)
  deriving DecidableEq

/-- The initial pending set: `typeof docId === 'string' ? [docId] :
docId.slice(0)`. -/
def wfDocIds : WFId → List String
  | WFId.one s => [s]
  | WFId.many l => l

/-- The state of one `waitFor` invocation: the pending ids and whether
`listener.cancel()` has run. -/
structure WFState where
  docIds : List String
  cancelled : Bool
  deriving DecidableEq

/-- Initial `waitFor` state. -/
def wfInit (docId : WFId) : WFState := ⟨wfDocIds docId, false⟩

/-- Events delivered to the callbacks of one `waitFor` invocation by the
worker event loop: a change-feed change, a resolved `localDB.get` from the
existing-docs check (`filterFun`), a rejected `localDB.get` (the no-op
`catch`), the change-feed error event, and the timeout firing. -/
inductive WFEvent where
  | change (id : String)
  | gotDoc (id : String)
  | getMiss
  | feedErr (msg : String)
  | timeout
  deriving DecidableEq

/-- A value a `waitFor` callback computes for its caller. -/
inductive WFRet where
  | value (docId : WFId)
  | failure (msg : String)
  deriving DecidableEq

/-- The JS string form of the doc id interpolated into the timeout message
(an array stringifies comma-separated). -/
def wfIdText : WFId → String
  | WFId.one s => s
  | WFId.many l => String.intercalate "," l

/-- One callback step of the src/worker.js revision of `waitFor`.  The
second component is the value the callback RETURNS — discarded by the event
emitter / timer machinery — and the third is the list of messages posted to
the controller, which is empty in every case because this revision's
`waitFor` contains no `send` / `postMessage` call at all. -/
def waitForStep (docId : WFId) (s : WFState) : WFEvent → WFState × Option WFRet × List Reply
  | WFEvent.change id =>
    let ds := s.docIds.filter (fun x => x ≠ id)
    if ds.isEmpty then (⟨ds, true⟩, some (WFRet.value docId), [])
    else (⟨ds, s.cancelled⟩, none, [])
  | WFEvent.gotDoc id =>
    let ds := s.docIds.filter (fun x => x ≠ id)
    if ds.isEmpty then (⟨ds, true⟩, some (WFRet.value docId), [])
    else (⟨ds, s.cancelled⟩, none, [])
  | WFEvent.getMiss => (s, none, [])
  | WFEvent.feedErr msg =>
    (⟨s.docIds, true⟩, some (WFRet.failure msg), [])
  | WFEvent.timeout =>
    (⟨s.docIds, true⟩,
     some (WFRet.failure ("Can\x27t find " ++ wfIdText docId ++ ", timeout")), [])

/-- Run the src/worker.js `waitFor` machine over a list of events,
collecting the discarded callback return values and the posted messages. -/
def waitForRun (docId : WFId) (s : WFState) :
    List WFEvent → WFState × List WFRet × List Reply
  | [] => (s, [], [])
  | e :: rest =>
    let step := waitForStep docId s e
    let tail := waitForRun docId step.1 rest
    (tail.1,
     (match step.2.1 with | some r => [r] | none => []) ++ tail.2.1,
     step.2.2 ++ tail.2.2)

/-- The immediate return value of the src/worker.js `waitFor` function
itself: its body ends without a `return` statement, so the caller's future
(resolved by the workerize proxy with this value) fulfills with `undefined`
right away. -/
def waitForReturnValue (docId : WFId) (newOnly : Bool) (ms : Nat) : Option WFId :=
  none

/-- One callback step of the db.worker.js revision of `waitFor` (lines
246-293), whose callbacks post `send({i, res: docId})` on completion and
`send({i, rej})` on feed error or timeout. -/
def waitForStepOld (i : Nat) (docId : WFId) (s : WFState) :
    WFEvent → WFState × List Reply
  | WFEvent.change id =>
    let ds := s.docIds.filter (fun x => x ≠ id)
    if ds.isEmpty then (⟨ds, true⟩, [{i := i, res := some (wfIdText docId)}])
    else (⟨ds, s.cancelled⟩, [])
  | WFEvent.gotDoc id =>
    let ds := s.docIds.filter (fun x => x ≠ id)
    if ds.isEmpty then (⟨ds, true⟩, [{i := i, res := some (wfIdText docId)}])
    else (⟨ds, s.cancelled⟩, [])
  | WFEvent.getMiss => (s, [])
  | WFEvent.feedErr msg => (⟨s.docIds, true⟩, [{i := i, rej := some msg}])
  | WFEvent.timeout =>
    (⟨s.docIds, true⟩,
     [{i := i, rej := some ("Can\x27t find " ++ wfIdText docId ++ ", timeout")}])

/-- Run the db.worker.js `waitFor` machine, collecting posted messages. -/
def waitForRunOld (i : Nat) (docId : WFId) (s : WFState) :
    List WFEvent → WFState × List Reply
  | [] => (s, [])
  | e :: rest =>
    let step := waitForStepOld i docId s e
    let tail := waitForRunOld i docId step.1 rest
    (tail.1, step.2 ++ tail.2)

/-- C5 evaluated at a failing input.  `waitFor('x', ...)` followed by a
change event for `'x'`: in the src/worker.js revision the pending set
empties and the listener is cancelled, and the callback computes the value
`'x'` — but that value is only RETURNED into the change-feed machinery
(discarded), no message is ever posted, and the function's own immediate
return value is `undefined`; so the caller's future fulfills immediately
with `undefined` instead of fulfilling with the doc id when the set
empties.  The db.worker.js revision at the same input posts the
`{i, res: 'x'}` fulfillment message. -/
theorem waitFor_discards_result :
    waitForRun (WFId.one "x") (wfInit (WFId.one "x")) [WFEvent.change "x"]
      = (⟨[], true⟩, [WFRet.value (WFId.one "x")], []) ∧
    waitForReturnValue (WFId.one "x") true 50 = none ∧
    waitForRunOld 7 (WFId.one "x") (wfInit (WFId.one "x")) [WFEvent.change "x"]
      = (⟨[], true⟩, [{i := 7, res := some "x"}]) := by
  refine ⟨?_, rfl, ?_⟩ <;> decide

end WAGDB
